import Mathlib

/-!
A verification development for the angled-strip wallpaper generator
(src/main.rs of shift/dots-wallpaper).

The program is embedded shallowly.  Its pixel pipeline computes with f32;
we model an f32 value as an exact rational together with the IEEE special
values NaN, positive infinity and negative infinity, with the IEEE
special-value propagation rules for the operations the program uses
(sub, mul, div, min, max, floor, and the saturating cast to usize).

The integer-to-f32 conversions the program performs ((width - 1) as f32,
(height - 1) as f32, x as f32, y as f32, num_users as f32) are modelled
exactly, by rounding the integer to the nearest 24-bit-significand value
with ties to even (f32Nat below): this rounding is observable - it moves
the strip boundaries once width - 1 is at least 2^24 - and is the
counterexample to claim C4 as stated.  Rounding of the results of the
arithmetic operations themselves is not modelled (finite operands give
the exact rational result): each property proved below is insensitive to
that remaining idealization, because the inequalities are preserved by
monotone rounding and the exact identities used have the shapes
(a - a) / r = 0 and r / r = 1, which hold exactly in IEEE arithmetic as
well; sharp floor-boundary classifications, which operation rounding
does not preserve, are asserted only for the fixed concrete inputs whose
distance to a boundary dwarfs any f32 rounding error.

The tangent of the angle is an external libm computation
(angle_degrees.to_radians().tan(), lines 94-95); the embedding takes the
resulting value tan_theta as a parameter.  For angle 0 the program
computes tan(0.0.to_radians()) = tan(0.0) = 0.0 exactly, so angle 0
corresponds to the parameter value F32.fin 0.

Image decoding and resizing are external library calls (the image crate);
the embedding takes a load function mapping each path to the outcome of
the open / guess-format / decode / to_rgb8 / resize chain of lines 42-71,
whose success value is the image already resized to the target
resolution.  File saving is an external side effect; the embedding
returns the image that the program saves.
-/

/-- Model of an f32 value: an exact rational or one of the IEEE special
values. -/
inductive F32 where
  | fin (q : ℚ)
  | nan
  | posInf
  | negInf
deriving DecidableEq

/-- IEEE subtraction on the f32 model (exact on finite values). -/
def F32.sub : F32 → F32 → F32
  | F32.nan, _ => F32.nan
  | F32.fin a, F32.fin b => F32.fin (a - b)
  | F32.fin _, F32.nan => F32.nan
  | F32.fin _, F32.posInf => F32.negInf
  | F32.fin _, F32.negInf => F32.posInf
  | F32.posInf, F32.nan => F32.nan
  | F32.posInf, F32.posInf => F32.nan
  | F32.posInf, F32.fin _ => F32.posInf
  | F32.posInf, F32.negInf => F32.posInf
  | F32.negInf, F32.nan => F32.nan
  | F32.negInf, F32.negInf => F32.nan
  | F32.negInf, F32.fin _ => F32.negInf
  | F32.negInf, F32.posInf => F32.negInf

/-- IEEE multiplication on the f32 model (exact on finite values). -/
def F32.mul : F32 → F32 → F32
  | F32.nan, _ => F32.nan
  | F32.fin a, F32.fin b => F32.fin (a * b)
  | F32.fin _, F32.nan => F32.nan
  | F32.fin a, F32.posInf =>
      if a = 0 then F32.nan else if 0 < a then F32.posInf else F32.negInf
  | F32.fin a, F32.negInf =>
      if a = 0 then F32.nan else if 0 < a then F32.negInf else F32.posInf
  | F32.posInf, F32.nan => F32.nan
  | F32.posInf, F32.fin b =>
      if b = 0 then F32.nan else if 0 < b then F32.posInf else F32.negInf
  | F32.posInf, F32.posInf => F32.posInf
  | F32.posInf, F32.negInf => F32.negInf
  | F32.negInf, F32.nan => F32.nan
  | F32.negInf, F32.fin b =>
      if b = 0 then F32.nan else if 0 < b then F32.negInf else F32.posInf
  | F32.negInf, F32.posInf => F32.negInf
  | F32.negInf, F32.negInf => F32.posInf

/-- IEEE division on the f32 model (exact on finite values; 0/0 is NaN,
x/0 for x nonzero is a signed infinity). -/
def F32.div : F32 → F32 → F32
  | F32.nan, _ => F32.nan
  | F32.fin a, F32.fin b =>
      if b = 0 then (if a = 0 then F32.nan else if 0 < a then F32.posInf else F32.negInf)
      else F32.fin (a / b)
  | F32.fin _, F32.nan => F32.nan
  | F32.fin _, F32.posInf => F32.fin 0
  | F32.fin _, F32.negInf => F32.fin 0
  | F32.posInf, F32.nan => F32.nan
  | F32.posInf, F32.fin b => if 0 ≤ b then F32.posInf else F32.negInf
  | F32.posInf, F32.posInf => F32.nan
  | F32.posInf, F32.negInf => F32.nan
  | F32.negInf, F32.nan => F32.nan
  | F32.negInf, F32.fin b => if 0 ≤ b then F32.negInf else F32.posInf
  | F32.negInf, F32.posInf => F32.nan
  | F32.negInf, F32.negInf => F32.nan

/-- Rust f32::min: the smaller argument; if one argument is NaN, the
other argument. -/
def F32.min : F32 → F32 → F32
  | F32.nan, b => b
  | F32.fin a, F32.nan => F32.fin a
  | F32.fin a, F32.fin b => F32.fin (Min.min a b)
  | F32.fin _, F32.negInf => F32.negInf
  | F32.fin a, F32.posInf => F32.fin a
  | F32.posInf, F32.nan => F32.posInf
  | F32.posInf, F32.fin b => F32.fin b
  | F32.posInf, F32.posInf => F32.posInf
  | F32.posInf, F32.negInf => F32.negInf
  | F32.negInf, F32.nan => F32.negInf
  | F32.negInf, F32.fin _ => F32.negInf
  | F32.negInf, F32.posInf => F32.negInf
  | F32.negInf, F32.negInf => F32.negInf

/-- Rust f32::max: the larger argument; if one argument is NaN, the
other argument. -/
def F32.max : F32 → F32 → F32
  | F32.nan, b => b
  | F32.fin a, F32.nan => F32.fin a
  | F32.fin a, F32.fin b => F32.fin (Max.max a b)
  | F32.fin a, F32.negInf => F32.fin a
  | F32.fin _, F32.posInf => F32.posInf
  | F32.posInf, F32.nan => F32.posInf
  | F32.posInf, F32.fin _ => F32.posInf
  | F32.posInf, F32.posInf => F32.posInf
  | F32.posInf, F32.negInf => F32.posInf
  | F32.negInf, F32.nan => F32.negInf
  | F32.negInf, F32.fin b => F32.fin b
  | F32.negInf, F32.posInf => F32.posInf
  | F32.negInf, F32.negInf => F32.negInf

/-- Rust f32::floor on the f32 model. -/
def F32.floor : F32 → F32
  | F32.fin q => F32.fin ((Int.floor q : ℤ) : ℚ)
  | F32.nan => F32.nan
  | F32.posInf => F32.posInf
  | F32.negInf => F32.negInf

/-- usize::MAX on a 64-bit target. -/
def USIZE_MAX : ℕ := 18446744073709551615

/-- Model of the saturating Rust cast from f32 to usize: NaN goes to 0,
values below zero go to 0, plus infinity and values above usize::MAX go
to usize::MAX, other values are truncated toward zero. -/
def F32.toUsize : F32 → ℕ
  | F32.nan => 0
  | F32.negInf => 0
  | F32.posInf => USIZE_MAX
  | F32.fin q => Min.min (Int.toNat (Int.floor q)) USIZE_MAX

/-- Round-to-nearest with ties to even on the grid of multiples of s:
the integer q * s + r (with r < s) goes to q * s or (q + 1) * s,
whichever is nearer, and to the even quotient on a tie. -/
def rnd24 (s q r : ℕ) : ℕ :=
  if 2 * r < s then q * s
  else if s < 2 * r then (q + 1) * s
  else if q % 2 = 0 then q * s else (q + 1) * s

/-- Model of the Rust integer-to-f32 conversions (u32 as f32 on lines
97-100 and 110, usize as f32 on line 112): round to the nearest value
with a 24-bit significand, ties to even.  Exact for n up to 2^24; above
that the unit in the last place is 2^(log2 n - 23). -/
def f32Nat (n : ℕ) : ℕ :=
  if n ≤ 16777216 then n
  else rnd24 (2 ^ (Nat.log 2 n - 23)) (n / 2 ^ (Nat.log 2 n - 23))
    (n % 2 ^ (Nat.log 2 n - 23))

/-- The converted integer as a rational, the form the f32 model uses. -/
def f32ofNat (n : ℕ) : ℚ := (f32Nat n : ℚ)

/-- An RGB pixel buffer.  The pix function gives the channel triple at
each coordinate; width and height record the buffer dimensions. -/
structure Img where
  width : ℕ
  height : ℕ
  pix : ℕ → ℕ → ℕ × ℕ × ℕ

/-- RgbImage::new(w, h): an all-black image, every channel zero. -/
def RgbImage.new (w h : ℕ) : Img :=
  { width := w, height := h, pix := fun _ _ => (0, 0, 0) }

/-- A solid one-colour image, used to build concrete working sets. -/
def solidImg (w h : ℕ) (c : ℕ × ℕ × ℕ) : Img :=
  { width := w, height := h, pix := fun _ _ => c }

/-- Outcome of the external open / guess-format / decode chain for one
input path (lines 42-71).  ok carries the decoded image after to_rgb8 and
resize to the target resolution (both external library calls). -/
inductive LoadResult where
  | ok (img : Img)
  | ioError (e : String)
  | formatError (e : String)
  | decodeError (e : String)

/-- The value produced for one path by the filter_map body of lines
36-72: the resized image on success, none on any failure. -/
def loadImage? (load : String → LoadResult) (path : String) : Option Img :=
  match load path with
  | LoadResult.ok img => some img
  | LoadResult.ioError _ => none
  | LoadResult.formatError _ => none
  | LoadResult.decodeError _ => none

/-- Lines 34-73: the resized_images working set, a filter_map over the
input paths. -/
def ingest (load : String → LoadResult) (paths : List String) : List Img :=
  paths.filterMap (loadImage? load)

/-- The warning string printed to stderr for one path (lines 57, 62, 68),
none when the path loads successfully. -/
def warningFor (path : String) : LoadResult → Option String
  | LoadResult.ok _ => none
  | LoadResult.ioError e =>
      some ("Warning: Skipping " ++ path ++ " due to an IO error: " ++ e)
  | LoadResult.formatError e =>
      some ("Warning: Skipping " ++ path ++ " due to a format error: " ++ e)
  | LoadResult.decodeError e =>
      some ("Warning: Skipping " ++ path ++ " due to a decode error: " ++ e)

/-- The sequence of warnings emitted while building the working set. -/
def warnings (load : String → LoadResult) (paths : List String) : List String :=
  paths.filterMap (fun p => warningFor p (load p))

/-- Line 110: the skew coordinate x as f32 - y as f32 * tan_theta of a
pixel, with both coordinate conversions rounded as the program rounds
them. -/
def skewed_x_at (tan_theta : F32) (x y : ℕ) : F32 :=
  F32.sub (F32.fin (f32ofNat x)) (F32.mul (F32.fin (f32ofNat y)) tan_theta)

/-- Line 97: skew coordinate of the top-left corner, 0.0 - 0.0 * tan_theta. -/
def p1 (tan_theta : F32) : F32 :=
  F32.sub (F32.fin 0) (F32.mul (F32.fin 0) tan_theta)

/-- Line 98: top-right corner, (width - 1) as f32 - 0.0 * tan_theta, the
conversion rounded as the program rounds it. -/
def p2 (tan_theta : F32) (width : ℕ) : F32 :=
  F32.sub (F32.fin (f32ofNat (width - 1))) (F32.mul (F32.fin 0) tan_theta)

/-- Line 99: bottom-left corner, 0.0 - (height - 1) as f32 * tan_theta. -/
def p3 (tan_theta : F32) (height : ℕ) : F32 :=
  F32.sub (F32.fin 0) (F32.mul (F32.fin (f32ofNat (height - 1))) tan_theta)

/-- Line 100: bottom-right corner, (width - 1) as f32 - (height - 1) as
f32 * tan_theta. -/
def p4 (tan_theta : F32) (width height : ℕ) : F32 :=
  F32.sub (F32.fin (f32ofNat (width - 1))) (F32.mul (F32.fin (f32ofNat (height - 1))) tan_theta)

/-- Line 102: min_skewed_x, the chained f32::min over the four corners. -/
def min_skewed_x (tan_theta : F32) (width height : ℕ) : F32 :=
  F32.min (F32.min (F32.min (p1 tan_theta) (p2 tan_theta width)) (p3 tan_theta height))
    (p4 tan_theta width height)

/-- Line 103: max_skewed_x, the chained f32::max over the four corners. -/
def max_skewed_x (tan_theta : F32) (width height : ℕ) : F32 :=
  F32.max (F32.max (F32.max (p1 tan_theta) (p2 tan_theta width)) (p3 tan_theta height))
    (p4 tan_theta width height)

/-- Line 104: skewed_range = max_skewed_x - min_skewed_x. -/
def skewed_range (tan_theta : F32) (width height : ℕ) : F32 :=
  F32.sub (max_skewed_x tan_theta width height) (min_skewed_x tan_theta width height)

/-- Line 111: normalized_progress = (skewed_x - min_skewed_x) / skewed_range. -/
def normalized_progress (width height : ℕ) (tan_theta : F32) (x y : ℕ) : F32 :=
  F32.div (F32.sub (skewed_x_at tan_theta x y) (min_skewed_x tan_theta width height))
    (skewed_range tan_theta width height)

/-- Lines 112-113: image_index = (normalized_progress * num_users as
f32).floor() as usize, then .min(num_users - 1); the usize-to-f32
conversion of num_users is rounded as the program rounds it. -/
def image_index (width height : ℕ) (tan_theta : F32) (num_users x y : ℕ) : ℕ :=
  Min.min
    (F32.toUsize (F32.floor (F32.mul (normalized_progress width height tan_theta x y)
      (F32.fin (f32ofNat num_users)))))
    (num_users - 1)

/-- Lines 106-119: the compositing loop.  Each canvas pixel (x, y) is the
pixel at the same coordinates of resized_images[image_index].  The getD
default is never reached: the index is always below the list length. -/
def composite (width height : ℕ) (tan_theta : F32) (resized_images : List Img) : Img :=
  { width := width, height := height,
    pix := fun x y =>
      (resized_images.getD (image_index width height tan_theta resized_images.length x y)
          (RgbImage.new width height)).pix x y }

/-- Lines 24-124: the whole operation as a function from the inputs to
the image that gets saved.  Empty working set: a fresh black image.  One
survivor: that image itself.  Otherwise the angled composite. -/
def create_angled_strip_wallpaper (resolution : ℕ × ℕ) (tan_theta : F32)
    (load : String → LoadResult) (wallpaper_paths : List String) : Img :=
  let resized_images := ingest load wallpaper_paths
  if resized_images.length = 0 then RgbImage.new resolution.1 resolution.2
  else if resized_images.length = 1 then
    resized_images.getD 0 (RgbImage.new resolution.1 resolution.2)
  else composite resolution.1 resolution.2 tan_theta resized_images

/-- Rust str::split on a single separator character, over the character
list of a string: maximal runs between separators, with empty segments
kept (splitting the empty string gives one empty segment). -/
def splitOnChar (sep : Char) (cs : List Char) : List (List Char) :=
  match cs with
  | [] => [[]]
  | c :: rest =>
    let r := splitOnChar sep rest
    if c = sep then [] :: r
    else
      match r with
      | seg :: segs => (c :: seg) :: segs
      | [] => [[c]]

/-- Model of Rust str::parse::<u32> on a character list: an optional
leading plus sign, then one or more ASCII digits, rejecting any other
character, an empty digit run, and values above u32::MAX. -/
def parse_u32 (cs : List Char) : Option ℕ :=
  let ds := match cs with
    | c :: rest => if c = '+' then rest else cs
    | [] => []
  if ds.isEmpty then none
  else if ds.all Char.isDigit then
    let v := ds.foldl (fun acc c => acc * 10 + (Char.toNat c - 48)) 0
    if v ≤ 4294967295 then some v else none
  else none

/-- Strips one optional leading sign character. -/
def stripSign (cs : List Char) : List Char :=
  match cs with
  | c :: rest => if c = '+' ∨ c = '-' then rest else cs
  | [] => []

/-- Digits, optionally around one decimal point, with at least one digit:
the mantissa grammar of Rust str::parse::<f32>. -/
def isMantissa (cs : List Char) : Bool :=
  match splitOnChar '.' cs with
  | [ds] => !ds.isEmpty && ds.all Char.isDigit
  | [as, bs] => as.all Char.isDigit && bs.all Char.isDigit && (!as.isEmpty || !bs.isEmpty)
  | _ => false

/-- An optional sign followed by one or more digits: the exponent grammar
of Rust str::parse::<f32>. -/
def isExpPart (cs : List Char) : Bool :=
  let ds := stripSign cs
  !ds.isEmpty && ds.all Char.isDigit

/-- Model of the acceptance set of Rust str::parse::<f32> (used by main
for the angle argument, line 152): an optional sign, then a
case-insensitive infinity or NaN keyword, or a mantissa with an optional
exponent part introduced by the letter e. -/
def isF32Numeric (s : String) : Bool :=
  let cs := (stripSign s.data).map Char.toLower
  if cs = "inf".data ∨ cs = "infinity".data ∨ cs = "nan".data then true
  else
    match splitOnChar 'e' cs with
    | [m] => isMantissa m
    | [m, ex] => isMantissa m && isExpPart ex
    | _ => false

/-- Lines 126-157: the argument-parsing front end of main.  Returns none
exactly when main prints a diagnostic and exits with code 1 before
calling create_angled_strip_wallpaper: fewer than four arguments, a
resolution string that does not split on the letter x into exactly two
parts, a width or height that str::parse::<u32> rejects, or an angle that
str::parse::<f32> rejects.  On success it returns the output path, the
parsed resolution and the input paths (args[4..], empty when only four
arguments are given). -/
def parse_args (args : List String) : Option (String × (ℕ × ℕ) × List String) :=
  match args with
  | _prog :: output_arg :: res :: ang :: rest =>
    match splitOnChar 'x' res.data with
    | [ws, hs] =>
      match parse_u32 ws, parse_u32 hs with
      | some w, some h =>
        if isF32Numeric ang then some (output_arg, (w, h), rest) else none
      | some _, none => none
      | none, some _ => none
      | none, none => none
    | _ => none
  | _ => none

/-- A concrete survivor image for witnesses. -/
def imgA : Img := solidImg 8 6 (10, 20, 30)

/-- A concrete load function with exactly one good path. -/
def loadA : String → LoadResult := fun p =>
  if p = "a.png" then LoadResult.ok imgA else LoadResult.ioError "No such file"

/-- A load function on which every path fails. -/
def loadFail : String → LoadResult := fun _ => LoadResult.decodeError "corrupt data"

/-- The resized working-set entry for the solid red input of the claim C4
example: a uniform image resized by the external Lanczos filter stays
uniform, so the 300x100 resized copy of the 100x100 solid red input is
solid red. -/
def redImg : Img := solidImg 300 100 (255, 0, 0)

/-- The resized working-set entry for the solid green input. -/
def greenImg : Img := solidImg 300 100 (0, 255, 0)

/-- The resized working-set entry for the solid blue input. -/
def blueImg : Img := solidImg 300 100 (0, 0, 255)

/-- A load function serving the three solid inputs of the concrete
example of claim C4. -/
def loadRGB : String → LoadResult := fun p =>
  if p = "red.png" then LoadResult.ok redImg
  else if p = "green.png" then LoadResult.ok greenImg
  else if p = "blue.png" then LoadResult.ok blueImg
  else LoadResult.ioError "No such file"

/-- Rational value of min_skewed_x at a finite tangent (proof-layer
abbreviation; the four summands are the corner skews of lines 97-100,
with the converted and rounded width - 1 and height - 1). -/
def qMinSkew (t : ℚ) (w h : ℕ) : ℚ :=
  Min.min (Min.min (Min.min ((0 : ℚ) - 0 * t) (f32ofNat (w - 1) - 0 * t))
    ((0 : ℚ) - f32ofNat (h - 1) * t)) (f32ofNat (w - 1) - f32ofNat (h - 1) * t)

/-- Rational value of max_skewed_x at a finite tangent. -/
def qMaxSkew (t : ℚ) (w h : ℕ) : ℚ :=
  Max.max (Max.max (Max.max ((0 : ℚ) - 0 * t) (f32ofNat (w - 1) - 0 * t))
    ((0 : ℚ) - f32ofNat (h - 1) * t)) (f32ofNat (w - 1) - f32ofNat (h - 1) * t)

lemma rnd24_mem (s q r : ℕ) : rnd24 s q r = q * s ∨ rnd24 s q r = (q + 1) * s := by
  unfold rnd24
  split_ifs
  exacts [Or.inl rfl, Or.inr rfl, Or.inl rfl, Or.inr rfl]

lemma rnd24_ge (s q r : ℕ) : q * s ≤ rnd24 s q r := by
  rcases rnd24_mem s q r with h | h
  · exact le_of_eq h.symm
  · rw [h]
    exact Nat.mul_le_mul_right s (Nat.le_succ q)

lemma rnd24_le (s q r : ℕ) : rnd24 s q r ≤ (q + 1) * s := by
  rcases rnd24_mem s q r with h | h
  · rw [h]
    exact Nat.mul_le_mul_right s (Nat.le_succ q)
  · exact le_of_eq h

/-- Rounding to a fixed grid with a fixed quotient is monotone in the
remainder. -/
lemma rnd24_mono_r (s q r r2 : ℕ) (h : r ≤ r2) : rnd24 s q r ≤ rnd24 s q r2 := by
  unfold rnd24
  split_ifs <;> first
    | exact le_refl _
    | exact Nat.mul_le_mul_right s (Nat.le_succ q)
    | omega

lemma f32Nat_small (n : ℕ) (h : n ≤ 16777216) : f32Nat n = n := by
  unfold f32Nat
  rw [if_pos h]

lemma log2_ge_24 (n : ℕ) (h : 16777216 < n) : 24 ≤ Nat.log 2 n := by
  refine (Nat.pow_le_iff_le_log (by norm_num) (by omega)).mp ?_
  calc (2 : ℕ) ^ 24 = 16777216 := by norm_num
    _ ≤ n := by omega

lemma f32Nat_big_lb (n : ℕ) (h : 16777216 < n) : 2 ^ Nat.log 2 n ≤ f32Nat n := by
  have h24 := log2_ge_24 n h
  have hs : 0 < 2 ^ (Nat.log 2 n - 23) := pow_pos (by norm_num) _
  have hq : 2 ^ 23 ≤ n / 2 ^ (Nat.log 2 n - 23) := by
    rw [Nat.le_div_iff_mul_le hs]
    calc 2 ^ 23 * 2 ^ (Nat.log 2 n - 23) = 2 ^ Nat.log 2 n := by
          rw [← pow_add]
          congr 1
          omega
      _ ≤ n := Nat.pow_log_le_self 2 (by omega)
  unfold f32Nat
  rw [if_neg (by omega)]
  calc 2 ^ Nat.log 2 n = 2 ^ 23 * 2 ^ (Nat.log 2 n - 23) := by
        rw [← pow_add]
        congr 1
        omega
    _ ≤ n / 2 ^ (Nat.log 2 n - 23) * 2 ^ (Nat.log 2 n - 23) :=
        Nat.mul_le_mul_right _ hq
    _ ≤ rnd24 (2 ^ (Nat.log 2 n - 23)) (n / 2 ^ (Nat.log 2 n - 23))
          (n % 2 ^ (Nat.log 2 n - 23)) := rnd24_ge _ _ _

lemma f32Nat_big_ub (n : ℕ) (h : 16777216 < n) : f32Nat n ≤ 2 ^ (Nat.log 2 n + 1) := by
  have h24 := log2_ge_24 n h
  have hs : 0 < 2 ^ (Nat.log 2 n - 23) := pow_pos (by norm_num) _
  have hq : n / 2 ^ (Nat.log 2 n - 23) < 2 ^ 24 := by
    rw [Nat.div_lt_iff_lt_mul hs]
    calc n < 2 ^ (Nat.log 2 n + 1) := Nat.lt_pow_succ_log_self (by norm_num) n
      _ = 2 ^ 24 * 2 ^ (Nat.log 2 n - 23) := by
          rw [← pow_add]
          congr 1
          omega
  unfold f32Nat
  rw [if_neg (by omega)]
  calc rnd24 (2 ^ (Nat.log 2 n - 23)) (n / 2 ^ (Nat.log 2 n - 23))
        (n % 2 ^ (Nat.log 2 n - 23)) ≤
      (n / 2 ^ (Nat.log 2 n - 23) + 1) * 2 ^ (Nat.log 2 n - 23) := rnd24_le _ _ _
    _ ≤ 2 ^ 24 * 2 ^ (Nat.log 2 n - 23) := Nat.mul_le_mul_right _ (by omega)
    _ = 2 ^ (Nat.log 2 n + 1) := by
        rw [← pow_add]
        congr 1
        omega

lemma f32Nat_pos (n : ℕ) (h : 0 < n) : 0 < f32Nat n := by
  by_cases hn : n ≤ 16777216
  · rw [f32Nat_small n hn]
    exact h
  · exact lt_of_lt_of_le (pow_pos (by norm_num) _) (f32Nat_big_lb n (by omega))

/-- The integer-to-f32 conversion is monotone. -/
lemma f32Nat_mono {m n : ℕ} (hmn : m ≤ n) : f32Nat m ≤ f32Nat n := by
  by_cases hm : m ≤ 16777216
  · by_cases hn : n ≤ 16777216
    · rw [f32Nat_small m hm, f32Nat_small n hn]
      exact hmn
    · push_neg at hn
      rw [f32Nat_small m hm]
      calc m ≤ 16777216 := hm
        _ ≤ 2 ^ Nat.log 2 n := by
            calc (16777216 : ℕ) = 2 ^ 24 := by norm_num
              _ ≤ 2 ^ Nat.log 2 n := Nat.pow_le_pow_right (by norm_num) (log2_ge_24 n hn)
        _ ≤ f32Nat n := f32Nat_big_lb n hn
  · push_neg at hm
    have hn : 16777216 < n := lt_of_lt_of_le hm hmn
    rcases lt_or_eq_of_le (Nat.log_mono_right hmn : Nat.log 2 m ≤ Nat.log 2 n) with hL | hL
    · calc f32Nat m ≤ 2 ^ (Nat.log 2 m + 1) := f32Nat_big_ub m hm
        _ ≤ 2 ^ Nat.log 2 n := Nat.pow_le_pow_right (by norm_num) (by omega)
        _ ≤ f32Nat n := f32Nat_big_lb n hn
    · unfold f32Nat
      rw [if_neg (show ¬m ≤ 16777216 by omega), if_neg (show ¬n ≤ 16777216 by omega), ← hL]
      have hs : 0 < 2 ^ (Nat.log 2 m - 23) := pow_pos (by norm_num) _
      rcases eq_or_lt_of_le (Nat.div_le_div_right (c := 2 ^ (Nat.log 2 m - 23)) hmn)
        with hqe | hql
      · rw [← hqe]
        refine rnd24_mono_r _ _ _ _ ?_
        have h1 := Nat.div_add_mod m (2 ^ (Nat.log 2 m - 23))
        have h2 := Nat.div_add_mod n (2 ^ (Nat.log 2 m - 23))
        rw [← hqe] at h2
        omega
      · calc rnd24 (2 ^ (Nat.log 2 m - 23)) (m / 2 ^ (Nat.log 2 m - 23))
              (m % 2 ^ (Nat.log 2 m - 23)) ≤
            (m / 2 ^ (Nat.log 2 m - 23) + 1) * 2 ^ (Nat.log 2 m - 23) := rnd24_le _ _ _
          _ ≤ n / 2 ^ (Nat.log 2 m - 23) * 2 ^ (Nat.log 2 m - 23) :=
              Nat.mul_le_mul_right _ (by omega)
          _ ≤ rnd24 (2 ^ (Nat.log 2 m - 23)) (n / 2 ^ (Nat.log 2 m - 23))
              (n % 2 ^ (Nat.log 2 m - 23)) := rnd24_ge _ _ _

lemma f32ofNat_small (n : ℕ) (h : n ≤ 16777216) : f32ofNat n = (n : ℚ) := by
  unfold f32ofNat
  rw [f32Nat_small n h]

lemma f32ofNat_zero : f32ofNat 0 = 0 := by
  rw [f32ofNat_small 0 (by norm_num)]
  norm_num

lemma f32ofNat_nonneg (n : ℕ) : 0 ≤ f32ofNat n := Nat.cast_nonneg _

lemma f32ofNat_mono {m n : ℕ} (h : m ≤ n) : f32ofNat m ≤ f32ofNat n := by
  unfold f32ofNat
  exact_mod_cast f32Nat_mono h

lemma f32ofNat_pos (n : ℕ) (h : 0 < n) : 0 < f32ofNat n := by
  unfold f32ofNat
  exact_mod_cast f32Nat_pos n h

lemma f32ofNat_eq_zero (n : ℕ) (h : f32ofNat n = 0) : n = 0 := by
  by_contra hne
  have hpos := f32ofNat_pos n (by omega)
  rw [h] at hpos
  exact lt_irrefl 0 hpos

/-- The value the conversion assigns to 33554433 = 2^25 + 1: exactly
halfway between the representable 2^25 and 2^25 + 4, the tie goes to the
even significand, 2^25. -/
lemma f32Nat_33554433 : f32Nat 33554433 = 33554432 := by
  have hlog : Nat.log 2 33554433 = 25 :=
    Nat.log_eq_of_pow_le_of_lt_pow (by norm_num) (by norm_num)
  unfold f32Nat
  rw [if_neg (by norm_num), hlog]
  norm_num [rnd24]

lemma skewed_x_at_fin (t : ℚ) (x y : ℕ) :
    skewed_x_at (F32.fin t) x y = F32.fin (f32ofNat x - f32ofNat y * t) := rfl

lemma min_skewed_x_fin (t : ℚ) (w h : ℕ) :
    min_skewed_x (F32.fin t) w h = F32.fin (qMinSkew t w h) := rfl

lemma max_skewed_x_fin (t : ℚ) (w h : ℕ) :
    max_skewed_x (F32.fin t) w h = F32.fin (qMaxSkew t w h) := rfl

lemma skewed_range_fin (t : ℚ) (w h : ℕ) :
    skewed_range (F32.fin t) w h = F32.fin (qMaxSkew t w h - qMinSkew t w h) := rfl

/-- The converted skew of any in-canvas pixel is at least the smallest
converted corner skew: the conversion is monotone, so the corner
conversions still bracket the pixel conversions. -/
lemma qMinSkew_le_skew (t : ℚ) (w h x y : ℕ) (hx : x < w) (hy : y < h) :
    qMinSkew t w h ≤ f32ofNat x - f32ofNat y * t := by
  have hxW : f32ofNat x ≤ f32ofNat (w - 1) := f32ofNat_mono (Nat.le_pred_of_lt hx)
  have hyH : f32ofNat y ≤ f32ofNat (h - 1) := f32ofNat_mono (Nat.le_pred_of_lt hy)
  have hx0 : (0 : ℚ) ≤ f32ofNat x := f32ofNat_nonneg x
  have hy0 : (0 : ℚ) ≤ f32ofNat y := f32ofNat_nonneg y
  rcases le_or_lt 0 t with ht | ht
  · have h1 : qMinSkew t w h ≤ (0 : ℚ) - f32ofNat (h - 1) * t :=
      le_trans (min_le_left _ _) (min_le_right _ _)
    have h2 : f32ofNat y * t ≤ f32ofNat (h - 1) * t := mul_le_mul_of_nonneg_right hyH ht
    nlinarith
  · have h1 : qMinSkew t w h ≤ (0 : ℚ) - 0 * t :=
      le_trans (min_le_left _ _) (le_trans (min_le_left _ _) (min_le_left _ _))
    have h2 : f32ofNat y * t ≤ 0 := mul_nonpos_of_nonneg_of_nonpos hy0 (le_of_lt ht)
    nlinarith

/-- The converted skew of any in-canvas pixel is at most the largest
converted corner skew. -/
lemma skew_le_qMaxSkew (t : ℚ) (w h x y : ℕ) (hx : x < w) (hy : y < h) :
    f32ofNat x - f32ofNat y * t ≤ qMaxSkew t w h := by
  have hxW : f32ofNat x ≤ f32ofNat (w - 1) := f32ofNat_mono (Nat.le_pred_of_lt hx)
  have hyH : f32ofNat y ≤ f32ofNat (h - 1) := f32ofNat_mono (Nat.le_pred_of_lt hy)
  have hy0 : (0 : ℚ) ≤ f32ofNat y := f32ofNat_nonneg y
  rcases le_or_lt 0 t with ht | ht
  · have h1 : f32ofNat (w - 1) - 0 * t ≤ qMaxSkew t w h :=
      le_trans (le_trans (le_max_right _ _) (le_max_left _ _)) (le_max_left _ _)
    have h2 : (0 : ℚ) ≤ f32ofNat y * t := mul_nonneg hy0 ht
    nlinarith
  · have h1 : f32ofNat (w - 1) - f32ofNat (h - 1) * t ≤ qMaxSkew t w h :=
      le_max_right _ _
    have h2 : f32ofNat (h - 1) * t ≤ f32ofNat y * t := by
      apply mul_le_mul_of_nonpos_right hyH (le_of_lt ht)
    nlinarith

lemma qMinSkew_le_qMaxSkew (t : ℚ) (w h : ℕ) : qMinSkew t w h ≤ qMaxSkew t w h :=
  le_trans (le_trans (min_le_left _ _) (le_trans (min_le_left _ _) (min_le_left _ _)))
    (le_trans (le_trans (le_max_left _ _) (le_max_left _ _)) (le_max_left _ _))

/-- The clamp of line 113 keeps the index strictly below the working-set
size, whatever float value reaches it. -/
lemma image_index_lt (width height : ℕ) (t : F32) (n x y : ℕ) (hn : 1 ≤ n) :
    image_index width height t n x y < n :=
  lt_of_le_of_lt (min_le_right _ _) (Nat.sub_lt hn Nat.one_pos)

lemma ingest_append (load : String → LoadResult) (l1 l2 : List String) :
    ingest load (l1 ++ l2) = ingest load l1 ++ ingest load l2 := by
  simp [ingest]

lemma ingest_cons (load : String → LoadResult) (p : String) (l : List String) :
    ingest load (p :: l) = ((loadImage? load p).toList) ++ ingest load l := by
  cases h : loadImage? load p <;> simp [ingest, h]

/-- Claim C1: for every canvas pixel, every angle value (any f32 tangent,
including NaN and infinities) and every working set of at least two
images, the computed source index lies in [0, N - 1] and is a valid
position of the image list (the lower bound 0 is inherent in the
saturating cast that the model's toUsize embeds). -/
theorem claim_C1_index_in_bounds :
    ∀ (width height : ℕ) (t : F32) (imgs : List Img) (x y : ℕ),
      2 ≤ imgs.length →
      image_index width height t imgs.length x y ≤ imgs.length - 1 ∧
      image_index width height t imgs.length x y < imgs.length :=
  fun width height t imgs x y hn =>
    ⟨min_le_right _ _, image_index_lt width height t imgs.length x y (le_trans one_le_two hn)⟩

theorem claim_C1_witness :
    2 ≤ ([solidImg 1 1 (0, 0, 0), solidImg 1 1 (9, 9, 9)] : List Img).length ∧
    (image_index 1 1 F32.nan ([solidImg 1 1 (0, 0, 0), solidImg 1 1 (9, 9, 9)] : List Img).length 0 0 ≤
        ([solidImg 1 1 (0, 0, 0), solidImg 1 1 (9, 9, 9)] : List Img).length - 1 ∧
      image_index 1 1 F32.nan ([solidImg 1 1 (0, 0, 0), solidImg 1 1 (9, 9, 9)] : List Img).length 0 0 <
        ([solidImg 1 1 (0, 0, 0), solidImg 1 1 (9, 9, 9)] : List Img).length) :=
  ⟨by simp, claim_C1_index_in_bounds 1 1 F32.nan
    [solidImg 1 1 (0, 0, 0), solidImg 1 1 (9, 9, 9)] 0 0 (by simp)⟩

/-- Claim C2: if exactly one image survives ingestion, the saved output
is that image itself (already resized to the target resolution), for
every resolution and every angle value: the angle plays no part. -/
theorem claim_C2_single_image :
    ∀ (resolution : ℕ × ℕ) (t : F32) (load : String → LoadResult)
      (paths : List String) (img : Img),
      ingest load paths = [img] →
      create_angled_strip_wallpaper resolution t load paths = img := by
  intro resolution t load paths img hws
  simp [create_angled_strip_wallpaper, hws]

theorem claim_C2_witness :
    ingest loadA ["bad.png", "a.png"] = [imgA] ∧
    create_angled_strip_wallpaper (8, 6) (F32.fin 5) loadA ["bad.png", "a.png"] = imgA :=
  ⟨rfl, claim_C2_single_image (8, 6) (F32.fin 5) loadA ["bad.png", "a.png"] imgA rfl⟩

/-- Claim C3: if no image survives ingestion, the operation still
succeeds and the saved output is a fresh canvas of exactly the requested
dimensions with every pixel black, for every resolution and angle. -/
theorem claim_C3_empty_black :
    ∀ (w h : ℕ) (t : F32) (load : String → LoadResult) (paths : List String),
      ingest load paths = [] →
      create_angled_strip_wallpaper (w, h) t load paths = RgbImage.new w h ∧
      (create_angled_strip_wallpaper (w, h) t load paths).width = w ∧
      (create_angled_strip_wallpaper (w, h) t load paths).height = h ∧
      ∀ x y : ℕ, (create_angled_strip_wallpaper (w, h) t load paths).pix x y = (0, 0, 0) := by
  intro w h t load paths hws
  simp [create_angled_strip_wallpaper, hws, RgbImage.new]

theorem claim_C3_witness :
    ingest loadFail ["x.png", "y.png"] = [] ∧
    (create_angled_strip_wallpaper (100, 100) (F32.fin 0) loadFail ["x.png", "y.png"] =
        RgbImage.new 100 100 ∧
      (create_angled_strip_wallpaper (100, 100) (F32.fin 0) loadFail ["x.png", "y.png"]).width = 100 ∧
      (create_angled_strip_wallpaper (100, 100) (F32.fin 0) loadFail ["x.png", "y.png"]).height = 100 ∧
      ∀ x y : ℕ,
        (create_angled_strip_wallpaper (100, 100) (F32.fin 0) loadFail ["x.png", "y.png"]).pix x y =
          (0, 0, 0)) :=
  ⟨rfl, claim_C3_empty_black 100 100 (F32.fin 0) loadFail ["x.png", "y.png"] rfl⟩

/-- Claim C5: in the N >= 2 case every canvas pixel (x, y) is exactly the
pixel at the same coordinates (x, y) of the selected source image - a
verbatim copy with no transformation of coordinates or values - and the
angle can only change which source is selected, never the copied value:
two tangents selecting the same index give the same pixel. -/
theorem claim_C5_verbatim_copy :
    ∀ (w h : ℕ) (t : F32) (imgs : List Img) (x y : ℕ),
      2 ≤ imgs.length → x < w → y < h →
      image_index w h t imgs.length x y < imgs.length ∧
      (composite w h t imgs).pix x y =
        (imgs.getD (image_index w h t imgs.length x y) (RgbImage.new w h)).pix x y ∧
      ∀ t2 : F32,
        image_index w h t imgs.length x y = image_index w h t2 imgs.length x y →
        (composite w h t imgs).pix x y = (composite w h t2 imgs).pix x y := by
  intro w h t imgs x y hn hx hy
  refine ⟨image_index_lt w h t imgs.length x y (le_trans one_le_two hn), rfl, ?_⟩
  intro t2 heq
  simp [composite, heq]

theorem claim_C5_witness :
    (2 ≤ ([solidImg 4 3 (1, 2, 3), solidImg 4 3 (4, 5, 6)] : List Img).length ∧ 1 < 4 ∧ 2 < 3) ∧
    (image_index 4 3 (F32.fin 1) ([solidImg 4 3 (1, 2, 3), solidImg 4 3 (4, 5, 6)] : List Img).length 1 2 <
        ([solidImg 4 3 (1, 2, 3), solidImg 4 3 (4, 5, 6)] : List Img).length ∧
      (composite 4 3 (F32.fin 1) [solidImg 4 3 (1, 2, 3), solidImg 4 3 (4, 5, 6)]).pix 1 2 =
        (([solidImg 4 3 (1, 2, 3), solidImg 4 3 (4, 5, 6)] : List Img).getD
            (image_index 4 3 (F32.fin 1)
              ([solidImg 4 3 (1, 2, 3), solidImg 4 3 (4, 5, 6)] : List Img).length 1 2)
            (RgbImage.new 4 3)).pix 1 2 ∧
      ∀ t2 : F32,
        image_index 4 3 (F32.fin 1)
            ([solidImg 4 3 (1, 2, 3), solidImg 4 3 (4, 5, 6)] : List Img).length 1 2 =
          image_index 4 3 t2
            ([solidImg 4 3 (1, 2, 3), solidImg 4 3 (4, 5, 6)] : List Img).length 1 2 →
        (composite 4 3 (F32.fin 1) [solidImg 4 3 (1, 2, 3), solidImg 4 3 (4, 5, 6)]).pix 1 2 =
          (composite 4 3 t2 [solidImg 4 3 (1, 2, 3), solidImg 4 3 (4, 5, 6)]).pix 1 2) :=
  ⟨⟨by simp, by norm_num, by norm_num⟩,
    claim_C5_verbatim_copy 4 3 (F32.fin 1) [solidImg 4 3 (1, 2, 3), solidImg 4 3 (4, 5, 6)] 1 2
      (by simp) (by norm_num) (by norm_num)⟩

/-- Claim C7: ingestion preserves the relative order of the input path
list.  Splitting the paths anywhere, the working set is the working set
of the left part, then whatever the middle path contributes (its image on
success, nothing on failure - no placeholder), then the working set of
the right part. -/
theorem claim_C7_order_preserved :
    ∀ (load : String → LoadResult) (pre post : List String) (p : String),
      ingest load (pre ++ p :: post) =
        ingest load pre ++ ((loadImage? load p).toList ++ ingest load post) := by
  intro load pre post p
  rw [ingest_append, ingest_cons]

lemma normalized_progress_fin (w h x y : ℕ) (t : ℚ)
    (hr : qMaxSkew t w h - qMinSkew t w h ≠ 0) :
    normalized_progress w h (F32.fin t) x y =
      F32.fin (((f32ofNat x - f32ofNat y * t) - qMinSkew t w h) /
        (qMaxSkew t w h - qMinSkew t w h)) := by
  unfold normalized_progress
  rw [skewed_range_fin, min_skewed_x_fin, skewed_x_at_fin]
  simp [F32.sub, F32.div, hr]

/-- Claim C6 is refuted as stated: at the valid 1x1 resolution all four
corner skews coincide, the skew range is zero, and the normalized
progress of the (only) canvas pixel is NaN - not a value of [0, 1] -
already at angle 0 (finite tangent). -/
theorem claim_C6_counterexample :
    normalized_progress 1 1 (F32.fin 0) 0 0 = F32.nan ∧
    ¬∃ q : ℚ, normalized_progress 1 1 (F32.fin 0) 0 0 = F32.fin q ∧ 0 ≤ q ∧ q ≤ 1 := by
  have hnan : normalized_progress 1 1 (F32.fin 0) 0 0 = F32.nan := by
    norm_num [normalized_progress, skewed_x_at, min_skewed_x, max_skewed_x, skewed_range,
      p1, p2, p3, p4, F32.sub, F32.mul, F32.min, F32.max, F32.div, min_def, max_def, f32ofNat, f32Nat]
  refine ⟨hnan, ?_⟩
  rw [hnan]
  rintro ⟨q, hq, -, -⟩
  exact absurd hq (by simp)

/-- Claim C6 (amended): for every canvas pixel and every finite tangent,
provided the four corner skews are not all equal (nonzero skew range),
the normalized progress is a finite value of [0, 1]; and any pixel whose
skew attains the corner minimum (resp. maximum) maps to exactly 0
(resp. exactly 1). -/
theorem claim_C6_amended_progress_bounds :
    ∀ (w h x y : ℕ) (t : ℚ), x < w → y < h →
      skewed_range (F32.fin t) w h ≠ F32.fin 0 →
      (∃ q : ℚ, normalized_progress w h (F32.fin t) x y = F32.fin q ∧ 0 ≤ q ∧ q ≤ 1) ∧
      (skewed_x_at (F32.fin t) x y = min_skewed_x (F32.fin t) w h →
        normalized_progress w h (F32.fin t) x y = F32.fin 0) ∧
      (skewed_x_at (F32.fin t) x y = max_skewed_x (F32.fin t) w h →
        normalized_progress w h (F32.fin t) x y = F32.fin 1) := by
  intro w h x y t hx hy hr0
  have hr : qMaxSkew t w h - qMinSkew t w h ≠ 0 := by
    intro hc
    exact hr0 (by rw [skewed_range_fin, hc])
  have hpos : 0 < qMaxSkew t w h - qMinSkew t w h :=
    lt_of_le_of_ne (sub_nonneg.mpr (qMinSkew_le_qMaxSkew t w h)) (Ne.symm hr)
  refine ⟨⟨_, normalized_progress_fin w h x y t hr, ?_, ?_⟩, ?_, ?_⟩
  · exact div_nonneg (sub_nonneg.mpr (qMinSkew_le_skew t w h x y hx hy)) (le_of_lt hpos)
  · rw [div_le_one hpos]
    exact sub_le_sub_right (skew_le_qMaxSkew t w h x y hx hy) _
  · intro hmin
    rw [normalized_progress_fin w h x y t hr]
    rw [skewed_x_at_fin, min_skewed_x_fin] at hmin
    rw [F32.fin.inj hmin, sub_self, zero_div]
  · intro hmax
    rw [normalized_progress_fin w h x y t hr]
    rw [skewed_x_at_fin, max_skewed_x_fin] at hmax
    rw [F32.fin.inj hmax, div_self hr]

theorem claim_C6_amended_witness :
    (1 < 3 ∧ 1 < 2 ∧ skewed_range (F32.fin (1 / 2 : ℚ)) 3 2 ≠ F32.fin 0) ∧
    ((∃ q : ℚ, normalized_progress 3 2 (F32.fin (1 / 2 : ℚ)) 1 1 = F32.fin q ∧ 0 ≤ q ∧ q ≤ 1) ∧
      (skewed_x_at (F32.fin (1 / 2 : ℚ)) 1 1 = min_skewed_x (F32.fin (1 / 2 : ℚ)) 3 2 →
        normalized_progress 3 2 (F32.fin (1 / 2 : ℚ)) 1 1 = F32.fin 0) ∧
      (skewed_x_at (F32.fin (1 / 2 : ℚ)) 1 1 = max_skewed_x (F32.fin (1 / 2 : ℚ)) 3 2 →
        normalized_progress 3 2 (F32.fin (1 / 2 : ℚ)) 1 1 = F32.fin 1)) :=
  ⟨⟨by norm_num, by norm_num, by
      norm_num [skewed_range, min_skewed_x, max_skewed_x, p1, p2, p3, p4,
        F32.sub, F32.mul, F32.min, F32.max, min_def, max_def, f32ofNat, f32Nat]⟩,
    claim_C6_amended_progress_bounds 3 2 1 1 (1 / 2) (by norm_num) (by norm_num) (by
      norm_num [skewed_range, min_skewed_x, max_skewed_x, p1, p2, p3, p4,
        F32.sub, F32.mul, F32.min, F32.max, min_def, max_def, f32ofNat, f32Nat])⟩

/-- Claim C10: when the four corner skews coincide (for instance a 1x1
resolution, or width 1 with tangent 0) and at least two images survive,
the skew range is zero, the normalized progress of every canvas pixel is
NaN, the saturating cast sends floor(NaN * N) to 0, the clamp keeps the
index valid, and every canvas pixel is copied from image 0. -/
theorem claim_C10_degenerate_range :
    ∀ (w h : ℕ) (t : ℚ) (imgs : List Img) (x y : ℕ),
      1 ≤ w → 1 ≤ h → 2 ≤ imgs.length → x < w → y < h →
      p2 (F32.fin t) w = p1 (F32.fin t) →
      p3 (F32.fin t) h = p1 (F32.fin t) →
      p4 (F32.fin t) w h = p1 (F32.fin t) →
      normalized_progress w h (F32.fin t) x y = F32.nan ∧
      image_index w h (F32.fin t) imgs.length x y = 0 ∧
      image_index w h (F32.fin t) imgs.length x y < imgs.length ∧
      (composite w h (F32.fin t) imgs).pix x y = (imgs.getD 0 (RgbImage.new w h)).pix x y := by
  intro w h t imgs x y hw hh hn hx hy hp2 hp3 hp4
  have hw1 : w = 1 := by
    simp only [p1, p2, F32.sub, F32.mul, F32.fin.injEq, zero_mul, sub_zero] at hp2
    have h0 : w - 1 = 0 := f32ofNat_eq_zero _ hp2
    omega
  have hHt : f32ofNat (h - 1) * t = 0 := by
    simp only [p1, p3, F32.sub, F32.mul, F32.fin.injEq, zero_mul, sub_zero, zero_sub,
      neg_eq_zero] at hp3
    exact hp3
  have hx0 : x = 0 := by omega
  have hyt : f32ofNat y * t = 0 := by
    rcases mul_eq_zero.mp hHt with hH | ht
    · have hh1 : h = 1 := by
        have h0 : h - 1 = 0 := f32ofNat_eq_zero _ hH
        omega
      have hy0 : y = 0 := by omega
      simp [hy0, f32ofNat_zero]
    · simp [ht]
  have hW0 : f32ofNat (w - 1) = 0 := by
    rw [hw1]
    norm_num [f32ofNat_zero]
  have hmn : min_skewed_x (F32.fin t) w h = F32.fin 0 := by
    rw [min_skewed_x_fin]
    simp [qMinSkew, hW0, hHt]
  have hmx : max_skewed_x (F32.fin t) w h = F32.fin 0 := by
    rw [max_skewed_x_fin]
    simp [qMaxSkew, hW0, hHt]
  have hrange : skewed_range (F32.fin t) w h = F32.fin 0 := by
    unfold skewed_range
    rw [hmn, hmx]
    simp [F32.sub]
  have hs : skewed_x_at (F32.fin t) x y = F32.fin 0 := by
    rw [skewed_x_at_fin, hx0]
    simp [hyt, f32ofNat_zero]
  have hprog : normalized_progress w h (F32.fin t) x y = F32.nan := by
    unfold normalized_progress
    rw [hs, hmn, hrange]
    simp [F32.sub, F32.div]
  have hidx : image_index w h (F32.fin t) imgs.length x y = 0 := by
    unfold image_index
    rw [hprog]
    simp [F32.mul, F32.floor, F32.toUsize]
  refine ⟨hprog, hidx, ?_, ?_⟩
  · rw [hidx]
    omega
  · simp only [composite]
    rw [hidx]

theorem claim_C10_witness :
    (1 ≤ 1 ∧ 2 ≤ ([solidImg 1 1 (1, 1, 1), solidImg 1 1 (2, 2, 2)] : List Img).length ∧
      p2 (F32.fin 0) 1 = p1 (F32.fin 0) ∧ p3 (F32.fin 0) 1 = p1 (F32.fin 0) ∧
      p4 (F32.fin 0) 1 1 = p1 (F32.fin 0)) ∧
    (normalized_progress 1 1 (F32.fin 0) 0 0 = F32.nan ∧
      image_index 1 1 (F32.fin 0)
          ([solidImg 1 1 (1, 1, 1), solidImg 1 1 (2, 2, 2)] : List Img).length 0 0 = 0 ∧
      image_index 1 1 (F32.fin 0)
          ([solidImg 1 1 (1, 1, 1), solidImg 1 1 (2, 2, 2)] : List Img).length 0 0 <
        ([solidImg 1 1 (1, 1, 1), solidImg 1 1 (2, 2, 2)] : List Img).length ∧
      (composite 1 1 (F32.fin 0) [solidImg 1 1 (1, 1, 1), solidImg 1 1 (2, 2, 2)]).pix 0 0 =
        (([solidImg 1 1 (1, 1, 1), solidImg 1 1 (2, 2, 2)] : List Img).getD 0
            (RgbImage.new 1 1)).pix 0 0) :=
  ⟨⟨le_refl 1, by simp, by norm_num [p1, p2, F32.sub, F32.mul, f32ofNat, f32Nat],
      by norm_num [p1, p3, F32.sub, F32.mul, f32ofNat, f32Nat], by norm_num [p1, p4, F32.sub, F32.mul, f32ofNat, f32Nat]⟩,
    claim_C10_degenerate_range 1 1 0 [solidImg 1 1 (1, 1, 1), solidImg 1 1 (2, 2, 2)] 0 0
      (le_refl 1) (le_refl 1) (by simp) (by norm_num) (by norm_num)
      (by norm_num [p1, p2, F32.sub, F32.mul, f32ofNat, f32Nat])
      (by norm_num [p1, p3, F32.sub, F32.mul, f32ofNat, f32Nat])
      (by norm_num [p1, p4, F32.sub, F32.mul, f32ofNat, f32Nat])⟩

/-- The canvas pixel written by the loop body, as an equation usable for
rewriting (keeping the kernel from evaluating the index). -/
lemma composite_pix (w h : ℕ) (t : F32) (imgs : List Img) (x y : ℕ) :
    (composite w h t imgs).pix x y =
      (imgs.getD (image_index w h t imgs.length x y) (RgbImage.new w h)).pix x y := rfl

lemma qMinSkew_zero_angle (w h : ℕ) : qMinSkew 0 w h = 0 := by
  have h0W : (0 : ℚ) ≤ f32ofNat (w - 1) := f32ofNat_nonneg _
  simp [qMinSkew, min_eq_left h0W]

lemma qMaxSkew_zero_angle (w h : ℕ) : qMaxSkew 0 w h = f32ofNat (w - 1) := by
  have h0W : (0 : ℚ) ≤ f32ofNat (w - 1) := f32ofNat_nonneg _
  simp [qMaxSkew, max_eq_right h0W, max_eq_left h0W]

/-- At tangent 0, in the regime where every integer-to-f32 conversion
the index needs is exact (w - 1 and n at most 2^24), the index of a
pixel of the i-th vertical band is i: band membership is
i * (w-1) <= x * n < (i+1) * (w-1), that is, floor (x * n / (w-1)) = i.
Used only for fixed concrete pixels whose distance to a band boundary
dwarfs any f32 rounding error. -/
lemma image_index_zero_angle (w h n x y i : ℕ) (hw : 2 ≤ w) (hw24 : w - 1 ≤ 16777216)
    (hn : 2 ≤ n) (hn24 : n ≤ 16777216) (hi : i < n)
    (hlo : i * (w - 1) ≤ x * n) (hhi : x * n < (i + 1) * (w - 1)) (hx : x < w) :
    image_index w h (F32.fin 0) n x y = i := by
  have hWpos : (0 : ℚ) < ((w - 1 : ℕ) : ℚ) := by
    have h1 : 0 < w - 1 := by omega
    exact_mod_cast h1
  have hWf : f32ofNat (w - 1) = ((w - 1 : ℕ) : ℚ) := f32ofNat_small _ hw24
  have hxf : f32ofNat x = (x : ℚ) := f32ofNat_small _ (by omega)
  have hnf : f32ofNat n = (n : ℚ) := f32ofNat_small _ hn24
  have hr : qMaxSkew 0 w h - qMinSkew 0 w h ≠ 0 := by
    rw [qMinSkew_zero_angle, qMaxSkew_zero_angle, sub_zero, hWf]
    exact ne_of_gt hWpos
  have hprog := normalized_progress_fin w h x y 0 hr
  rw [qMinSkew_zero_angle, qMaxSkew_zero_angle, hWf, hxf] at hprog
  unfold image_index
  rw [hprog, hnf]
  simp only [mul_zero, sub_zero]
  have hfloor : Int.floor ((x : ℚ) / ((w - 1 : ℕ) : ℚ) * (n : ℚ)) = (i : ℤ) := by
    rw [Int.floor_eq_iff]
    constructor
    · rw [div_mul_eq_mul_div, le_div_iff₀ hWpos]
      push_cast
      exact_mod_cast hlo
    · rw [div_mul_eq_mul_div, div_lt_iff₀ hWpos]
      push_cast
      exact_mod_cast hhi
  show Min.min (F32.toUsize (F32.floor (F32.mul (F32.fin ((x : ℚ) / ((w - 1 : ℕ) : ℚ)))
      (F32.fin (n : ℚ))))) (n - 1) = i
  have hmul : F32.mul (F32.fin ((x : ℚ) / ((w - 1 : ℕ) : ℚ))) (F32.fin (n : ℚ)) =
      F32.fin ((x : ℚ) / ((w - 1 : ℕ) : ℚ) * (n : ℚ)) := rfl
  rw [hmul]
  simp only [F32.floor]
  rw [hfloor]
  simp only [F32.toUsize, Int.floor_intCast, Int.toNat_natCast]
  have hUM : n ≤ USIZE_MAX := le_trans hn24 (by norm_num [USIZE_MAX])
  rw [min_eq_left (show i ≤ USIZE_MAX by omega)]
  exact min_eq_left (by omega)

/-- At tangent 0 the rightmost column x = w - 1 lands in the last band:
its skew equals the converted width - 1 exactly, the progress is
exactly 1.0, the raw bucket is n, and the clamp of line 113 brings it to
n - 1.  Exact for any width; only the image count needs to convert
exactly. -/
lemma image_index_zero_angle_right (w h n y : ℕ) (hw : 2 ≤ w) (hn24 : n ≤ 16777216) :
    image_index w h (F32.fin 0) n (w - 1) y = n - 1 := by
  have hWpos : (0 : ℚ) < f32ofNat (w - 1) := f32ofNat_pos _ (by omega)
  have hnf : f32ofNat n = (n : ℚ) := f32ofNat_small _ hn24
  have hr : qMaxSkew 0 w h - qMinSkew 0 w h ≠ 0 := by
    rw [qMinSkew_zero_angle, qMaxSkew_zero_angle, sub_zero]
    exact ne_of_gt hWpos
  have hprog := normalized_progress_fin w h (w - 1) y 0 hr
  rw [qMinSkew_zero_angle, qMaxSkew_zero_angle] at hprog
  unfold image_index
  rw [hprog, hnf]
  simp only [mul_zero, sub_zero]
  rw [div_self (ne_of_gt hWpos)]
  show Min.min (F32.toUsize (F32.floor (F32.mul (F32.fin 1) (F32.fin (n : ℚ))))) (n - 1) = n - 1
  have hmul : F32.mul (F32.fin 1) (F32.fin (n : ℚ)) = F32.fin ((1 : ℚ) * (n : ℚ)) := rfl
  rw [hmul, one_mul]
  simp only [F32.floor, Int.floor_natCast]
  simp only [F32.toUsize, Int.floor_intCast, Int.toNat_natCast]
  rw [min_eq_left (le_trans hn24 (by norm_num [USIZE_MAX]))]
  exact min_eq_right (Nat.sub_le n 1)

/-- At tangent 0 the index ignores the row: the row enters the skew only
multiplied by the tangent. -/
lemma image_index_zero_angle_y (w h n x y y2 : ℕ) :
    image_index w h (F32.fin 0) n x y = image_index w h (F32.fin 0) n x y2 := by
  have hskew : ∀ z : ℕ, skewed_x_at (F32.fin 0) x z = F32.fin (f32ofNat x) := by
    intro z
    rw [skewed_x_at_fin, mul_zero, sub_zero]
  unfold image_index normalized_progress
  rw [hskew y, hskew y2]

/-- At tangent 0 the index is monotone in the column: the conversion,
the division by the positive skew range, the multiplication by the
(nonnegative) converted image count, floor, the saturating cast and the
clamp are all monotone. -/
lemma image_index_zero_angle_mono (w h n x x2 y : ℕ) (hw : 2 ≤ w) (hx : x ≤ x2) :
    image_index w h (F32.fin 0) n x y ≤ image_index w h (F32.fin 0) n x2 y := by
  have hWpos : (0 : ℚ) < f32ofNat (w - 1) := f32ofNat_pos _ (by omega)
  have hr : qMaxSkew 0 w h - qMinSkew 0 w h ≠ 0 := by
    rw [qMinSkew_zero_angle, qMaxSkew_zero_angle, sub_zero]
    exact ne_of_gt hWpos
  have hpa := normalized_progress_fin w h x y 0 hr
  have hpb := normalized_progress_fin w h x2 y 0 hr
  rw [qMinSkew_zero_angle, qMaxSkew_zero_angle] at hpa hpb
  unfold image_index
  rw [hpa, hpb]
  simp only [mul_zero, sub_zero]
  have hdiv : f32ofNat x / f32ofNat (w - 1) ≤ f32ofNat x2 / f32ofNat (w - 1) := by
    rw [div_eq_mul_inv, div_eq_mul_inv]
    exact mul_le_mul_of_nonneg_right (f32ofNat_mono hx) (inv_nonneg.mpr (le_of_lt hWpos))
  have hmulle : f32ofNat x / f32ofNat (w - 1) * f32ofNat n ≤
      f32ofNat x2 / f32ofNat (w - 1) * f32ofNat n :=
    mul_le_mul_of_nonneg_right hdiv (f32ofNat_nonneg n)
  show Min.min (F32.toUsize (F32.floor (F32.mul (F32.fin (f32ofNat x / f32ofNat (w - 1)))
      (F32.fin (f32ofNat n))))) (n - 1) ≤
    Min.min (F32.toUsize (F32.floor (F32.mul (F32.fin (f32ofNat x2 / f32ofNat (w - 1)))
      (F32.fin (f32ofNat n))))) (n - 1)
  have hm1 : F32.mul (F32.fin (f32ofNat x / f32ofNat (w - 1))) (F32.fin (f32ofNat n)) =
      F32.fin (f32ofNat x / f32ofNat (w - 1) * f32ofNat n) := rfl
  have hm2 : F32.mul (F32.fin (f32ofNat x2 / f32ofNat (w - 1))) (F32.fin (f32ofNat n)) =
      F32.fin (f32ofNat x2 / f32ofNat (w - 1) * f32ofNat n) := rfl
  rw [hm1, hm2]
  simp only [F32.floor, F32.toUsize, Int.floor_intCast]
  exact min_le_min (min_le_min (Int.toNat_le_toNat (Int.floor_mono hmulle)) (le_refl _))
    (le_refl _)

/-- At tangent 0 the leftmost column has skew 0, progress exactly 0, and
index 0, for any working set. -/
lemma image_index_zero_angle_left (w h n y : ℕ) (hw : 2 ≤ w) :
    image_index w h (F32.fin 0) n 0 y = 0 := by
  have hWpos : (0 : ℚ) < f32ofNat (w - 1) := f32ofNat_pos _ (by omega)
  have hr : qMaxSkew 0 w h - qMinSkew 0 w h ≠ 0 := by
    rw [qMinSkew_zero_angle, qMaxSkew_zero_angle, sub_zero]
    exact ne_of_gt hWpos
  have hprog := normalized_progress_fin w h 0 y 0 hr
  rw [qMinSkew_zero_angle, qMaxSkew_zero_angle] at hprog
  unfold image_index
  rw [hprog]
  simp only [mul_zero, sub_zero, f32ofNat_zero, zero_div]
  show Min.min (F32.toUsize (F32.floor (F32.mul (F32.fin 0) (F32.fin (f32ofNat n))))) (n - 1) = 0
  have hmul : F32.mul (F32.fin 0) (F32.fin (f32ofNat n)) = F32.fin (0 * f32ofNat n) := rfl
  rw [hmul, zero_mul]
  simp only [F32.floor, F32.toUsize]
  norm_num

/-- Claim C4 is refuted as stated: the claim assigns every pixel of the
i-th interval of the x axis (i * (w-1) <= x * N < (i+1) * (w-1)) to
image i, but the program converts width - 1 to f32 before normalizing,
and that conversion rounds once width - 1 exceeds 2^24.  At width
33554434 and N = 2 the column x = 16777216 lies in the first interval
(16777216 * 2 = 33554432 < 33554433 = width - 1), yet 33554433 converts
to 33554432.0, the progress is exactly 16777216 / 33554432 = 0.5, the
raw bucket is floor(0.5 * 2) = 1, and the pixel is copied from image 1,
not image 0. -/
theorem claim_C4_counterexample :
    16777216 * 2 < (0 + 1) * (33554434 - 1) ∧
    image_index 33554434 100 (F32.fin 0) 2 16777216 50 = 1 ∧
    (composite 33554434 100 (F32.fin 0)
        [solidImg 33554434 100 (0, 0, 0), solidImg 33554434 100 (255, 255, 255)]).pix
      16777216 50 = (255, 255, 255) := by
  have hWf : f32ofNat (33554434 - 1) = 33554432 := by
    have h1 : (33554434 - 1 : ℕ) = 33554433 := by norm_num
    rw [h1]
    unfold f32ofNat
    rw [f32Nat_33554433]
    norm_num
  have hr : qMaxSkew 0 33554434 100 - qMinSkew 0 33554434 100 ≠ 0 := by
    rw [qMinSkew_zero_angle, qMaxSkew_zero_angle, sub_zero, hWf]
    norm_num
  have hprog := normalized_progress_fin 33554434 100 16777216 50 0 hr
  rw [qMinSkew_zero_angle, qMaxSkew_zero_angle, hWf] at hprog
  have hidx : image_index 33554434 100 (F32.fin 0) 2 16777216 50 = 1 := by
    unfold image_index
    rw [hprog, f32ofNat_small 16777216 (le_refl _), f32ofNat_small 2 (by norm_num)]
    norm_num [F32.mul, F32.floor, F32.toUsize, USIZE_MAX, min_def]
  refine ⟨by norm_num, hidx, ?_⟩
  rw [composite_pix]
  rw [show (List.length [solidImg 33554434 100 (0, 0, 0),
      solidImg 33554434 100 (255, 255, 255)]) = 2 from rfl]
  rw [hidx]
  rfl

/-- Claim C4 (amended): at angle 0 (tangent 0) the strips are vertical
and keep the path-list order: the computed index ignores the row, is
monotone in the column, is 0 at the leftmost column, and is N - 1 at the
rightmost column (for working sets of at most 2^24 images, so that the
image count converts to f32 exactly); the strip boundaries sit at the
idealized positions i * (w-1) / N only up to the f32 rounding of the
conversions, so interval membership of a pixel is asserted only away
from the boundaries: the concrete three-image example (red, green, blue
at 300x100) yields red at (50,50), green at (150,50) and blue at
(250,50). -/
theorem claim_C4_zero_angle_order :
    (∀ (w h n x y y2 : ℕ),
      image_index w h (F32.fin 0) n x y = image_index w h (F32.fin 0) n x y2) ∧
    (∀ (w h n x x2 y : ℕ), 2 ≤ w → x ≤ x2 →
      image_index w h (F32.fin 0) n x y ≤ image_index w h (F32.fin 0) n x2 y) ∧
    (∀ (w h n y : ℕ), 2 ≤ w → image_index w h (F32.fin 0) n 0 y = 0) ∧
    (∀ (imgs : List Img) (w h y : ℕ), 2 ≤ imgs.length → imgs.length ≤ 16777216 →
      2 ≤ w → y < h →
      (composite w h (F32.fin 0) imgs).pix (w - 1) y =
        (imgs.getD (imgs.length - 1) (RgbImage.new w h)).pix (w - 1) y) ∧
    ((create_angled_strip_wallpaper (300, 100) (F32.fin 0) loadRGB
        ["red.png", "green.png", "blue.png"]).pix 50 50 = (255, 0, 0) ∧
      (create_angled_strip_wallpaper (300, 100) (F32.fin 0) loadRGB
        ["red.png", "green.png", "blue.png"]).pix 150 50 = (0, 255, 0) ∧
      (create_angled_strip_wallpaper (300, 100) (F32.fin 0) loadRGB
        ["red.png", "green.png", "blue.png"]).pix 250 50 = (0, 0, 255)) := by
  have hband : ∀ (imgs : List Img) (w h x y i : ℕ),
      2 ≤ imgs.length → imgs.length ≤ 16777216 → 2 ≤ w → w - 1 ≤ 16777216 → x < w →
      y < h → i < imgs.length → i * (w - 1) ≤ x * imgs.length →
      x * imgs.length < (i + 1) * (w - 1) →
      (composite w h (F32.fin 0) imgs).pix x y = (imgs.getD i (RgbImage.new w h)).pix x y := by
    intro imgs w h x y i hn hn24 hw hw24 hx hy hi hlo hhi
    simp only [composite]
    rw [image_index_zero_angle w h imgs.length x y i hw hw24 hn hn24 hi hlo hhi hx]
  have hcreate : create_angled_strip_wallpaper (300, 100) (F32.fin 0) loadRGB
      ["red.png", "green.png", "blue.png"] =
      composite 300 100 (F32.fin 0) [redImg, greenImg, blueImg] := rfl
  refine ⟨?_, ?_, ?_, ?_, ?_, ?_, ?_⟩
  · intro w h n x y y2
    exact image_index_zero_angle_y w h n x y y2
  · intro w h n x x2 y hw hx
    exact image_index_zero_angle_mono w h n x x2 y hw hx
  · intro w h n y hw
    exact image_index_zero_angle_left w h n y hw
  · intro imgs w h y hn hn24 hw hy
    simp only [composite]
    rw [image_index_zero_angle_right w h imgs.length y hw hn24]
  · rw [hcreate, hband [redImg, greenImg, blueImg] 300 100 50 50 0 (by norm_num)
      (by norm_num) (by norm_num) (by norm_num) (by norm_num) (by norm_num) (by norm_num)
      (by norm_num) (by norm_num)]
    rfl
  · rw [hcreate, hband [redImg, greenImg, blueImg] 300 100 150 50 1 (by norm_num)
      (by norm_num) (by norm_num) (by norm_num) (by norm_num) (by norm_num) (by norm_num)
      (by norm_num) (by norm_num)]
    rfl
  · rw [hcreate, hband [redImg, greenImg, blueImg] 300 100 250 50 2 (by norm_num)
      (by norm_num) (by norm_num) (by norm_num) (by norm_num) (by norm_num) (by norm_num)
      (by norm_num) (by norm_num)]
    rfl

theorem claim_C4_witness :
    (2 ≤ ([solidImg 10 5 (1, 2, 3), solidImg 10 5 (4, 5, 6)] : List Img).length ∧
      ([solidImg 10 5 (1, 2, 3), solidImg 10 5 (4, 5, 6)] : List Img).length ≤ 16777216 ∧
      2 ≤ 10 ∧ 3 < 5) ∧
    (composite 10 5 (F32.fin 0) [solidImg 10 5 (1, 2, 3), solidImg 10 5 (4, 5, 6)]).pix
        (10 - 1) 3 =
      (([solidImg 10 5 (1, 2, 3), solidImg 10 5 (4, 5, 6)] : List Img).getD
          (([solidImg 10 5 (1, 2, 3), solidImg 10 5 (4, 5, 6)] : List Img).length - 1)
          (RgbImage.new 10 5)).pix (10 - 1) 3 :=
  ⟨⟨by norm_num, by norm_num, by norm_num, by norm_num⟩,
    claim_C4_zero_angle_order.2.2.2.1 [solidImg 10 5 (1, 2, 3), solidImg 10 5 (4, 5, 6)] 10 5 3
      (by norm_num) (by norm_num) (by norm_num) (by norm_num)⟩

/-- Claim C8: a path that fails at any ingestion stage produces a warning
naming that path among the emitted warnings, contributes nothing to the
working set, and the whole operation still runs to a result: the output
for the path list with the failing path equals the output for the path
list without it.  The model's load outcomes cover the three stages (IO
error, format error, decode error) and the whole pipeline is a total
function, so no single failing path can turn the operation into an
error. -/
theorem claim_C8_per_path_failure_nonfatal :
    ∀ (resolution : ℕ × ℕ) (t : F32) (load : String → LoadResult)
      (pre post : List String) (p : String),
      loadImage? load p = none →
      (∃ s, s ∈ warnings load (pre ++ p :: post) ∧ ∃ a b, s = a ++ (p ++ b)) ∧
      ingest load (pre ++ p :: post) = ingest load pre ++ ingest load post ∧
      create_angled_strip_wallpaper resolution t load (pre ++ p :: post) =
        create_angled_strip_wallpaper resolution t load (pre ++ post) := by
  intro resolution t load pre post p hfail
  have hpmem : p ∈ pre ++ p :: post := List.mem_append_right _ (List.mem_cons_self p post)
  have hdrop : ingest load (pre ++ p :: post) = ingest load pre ++ ingest load post := by
    rw [ingest_append, ingest_cons, hfail]
    simp
  refine ⟨?_, hdrop, ?_⟩
  · cases hl : load p with
    | ok img => simp [loadImage?, hl] at hfail
    | ioError e =>
        refine ⟨"Warning: Skipping " ++ p ++ " due to an IO error: " ++ e, ?_, "Warning: Skipping ",
          " due to an IO error: " ++ e, ?_⟩
        · exact List.mem_filterMap.mpr ⟨p, hpmem, by simp [warningFor, hl]⟩
        · rw [String.append_assoc, String.append_assoc]
    | formatError e =>
        refine ⟨"Warning: Skipping " ++ p ++ " due to a format error: " ++ e, ?_, "Warning: Skipping ",
          " due to a format error: " ++ e, ?_⟩
        · exact List.mem_filterMap.mpr ⟨p, hpmem, by simp [warningFor, hl]⟩
        · rw [String.append_assoc, String.append_assoc]
    | decodeError e =>
        refine ⟨"Warning: Skipping " ++ p ++ " due to a decode error: " ++ e, ?_, "Warning: Skipping ",
          " due to a decode error: " ++ e, ?_⟩
        · exact List.mem_filterMap.mpr ⟨p, hpmem, by simp [warningFor, hl]⟩
        · rw [String.append_assoc, String.append_assoc]
  · have hdrop2 : ingest load (pre ++ post) = ingest load pre ++ ingest load post :=
      ingest_append load pre post
    simp only [create_angled_strip_wallpaper, hdrop, hdrop2]

theorem claim_C8_witness :
    loadImage? loadA "bad2.png" = none ∧
    ((∃ s, s ∈ warnings loadA (["a.png"] ++ "bad2.png" :: []) ∧ ∃ a b, s = a ++ ("bad2.png" ++ b)) ∧
      ingest loadA (["a.png"] ++ "bad2.png" :: []) = ingest loadA ["a.png"] ++ ingest loadA [] ∧
      create_angled_strip_wallpaper (20, 10) (F32.fin 3) loadA (["a.png"] ++ "bad2.png" :: []) =
        create_angled_strip_wallpaper (20, 10) (F32.fin 3) loadA (["a.png"] ++ [])) :=
  ⟨rfl, claim_C8_per_path_failure_nonfatal (20, 10) (F32.fin 3) loadA ["a.png"] [] "bad2.png" rfl⟩

/-- Claim C9 is refuted as stated: the front end accepts a width of 0,
though 0 is not a positive integer.  On the concrete argument vector
[prog, out.png, 0x100, 0] main does not exit at the parsing stage: it
parses width 0, height 100, angle 0 and an empty path list. -/
theorem claim_C9_counterexample :
    parse_args ["prog", "out.png", "0x100", "0"] = some ("out.png", (0, 100), []) := by decide

/-- Claim C9 (amended): the front end exits with code 1 (parse_args
returns none, before anything is written) when there are too few
arguments, when the resolution string does not split on the letter x into
exactly two parts, when the width or height part is rejected by
str::parse::<u32> (zero is accepted: positivity is not enforced), or when
the angle is rejected by str::parse::<f32>; and it accepts every
well-formed argument vector, including one with zero input paths. -/
theorem claim_C9_amended_front_end :
    (∀ args : List String, args.length < 4 → parse_args args = none) ∧
    (∀ prog out res ang rest, (splitOnChar 'x' res.data).length ≠ 2 →
      parse_args (prog :: out :: res :: ang :: rest) = none) ∧
    (∀ prog out res ang rest ws hs, splitOnChar 'x' res.data = [ws, hs] →
      (parse_u32 ws = none ∨ parse_u32 hs = none) →
      parse_args (prog :: out :: res :: ang :: rest) = none) ∧
    (∀ prog out res ang rest, isF32Numeric ang = false →
      parse_args (prog :: out :: res :: ang :: rest) = none) ∧
    (∀ prog out res ang rest ws hs w h, splitOnChar 'x' res.data = [ws, hs] →
      parse_u32 ws = some w → parse_u32 hs = some h → isF32Numeric ang = true →
      parse_args (prog :: out :: res :: ang :: rest) = some (out, (w, h), rest)) := by
  refine ⟨?_, ?_, ?_, ?_, ?_⟩
  · intro args hlen
    match args with
    | [] => rfl
    | [_] => rfl
    | [_, _] => rfl
    | [_, _, _] => rfl
    | _ :: _ :: _ :: _ :: _ => simp at hlen; omega
  · intro prog out res ang rest hsplit
    simp only [parse_args]
    match hsp : splitOnChar 'x' res.data with
    | [] => rfl
    | [_] => rfl
    | [_, _] => rw [hsp] at hsplit; simp at hsplit
    | _ :: _ :: _ :: _ => rfl
  · intro prog out res ang rest ws hs hsplit hbad
    simp only [parse_args]
    rw [hsplit]
    rcases hbad with hw | hh
    · cases hph : parse_u32 hs <;> simp [hw, hph]
    · cases hpw : parse_u32 ws <;> simp [hpw, hh]
  · intro prog out res ang rest hang
    simp only [parse_args]
    match hsp : splitOnChar 'x' res.data with
    | [] => rfl
    | [_] => rfl
    | [ws, hs] =>
        cases hpw : parse_u32 ws <;> cases hph : parse_u32 hs <;> simp [hpw, hph, hang]
    | _ :: _ :: _ :: _ => rfl
  · intro prog out res ang rest ws hs w h hsplit hw hh hang
    simp only [parse_args]
    rw [hsplit]
    simp [hw, hh, hang]

theorem claim_C9_amended_witness :
    parse_args ["prog"] = none ∧
    parse_args ["prog", "out.png", "30x20", "5.5"] = some ("out.png", (30, 20), []) :=
  ⟨claim_C9_amended_front_end.1 ["prog"] (by norm_num),
    claim_C9_amended_front_end.2.2.2.2 "prog" "out.png" "30x20" "5.5" [] "30".data "20".data
      30 20 (by decide) (by decide) (by decide) (by decide)⟩
